import Mathlib

/-!
Shallow embedding of `src/LAB02_Middleware_FastAPI/main.py`, a FastAPI CRUD
service over a single JSON file `data.json`, together with proofs of the
specification claims about it.

Modelling conventions:
* Python `dict` documents `{"users": [...], "next_id": n}` become the
  structure `Db`.  The `next_id` field is an `Option Int`: `none` models a
  document in which the `"next_id"` key is absent, so that
  `db.get("next_id", 1)` becomes `db.next_id.getD 1`.
* Python integers are unbounded, hence `Int`.
* The backing file is modelled as `Option Db`: `none` when `data.json` does
  not exist, `some db` when it holds (the JSON serialisation of) `db`.
* Handlers that `raise HTTPException(404, ...)` are modelled as returning
  `none` / a `404` response; a successful return is `some _` / `2xx`.
* The process-wide lock serialises mutating handlers, so each handler is a
  pure function from the pre-state of the file to (result, post-state).
-/

namespace Lab02

/-- A persisted user record, as in the `UserOut` pydantic model of
`main.py`: the submitted fields plus the assigned `id`. -/
structure UserOut where
  id : Int
  username : String
  email : String
  age : Int
deriving Repr, DecidableEq

/-- The request body of POST/PUT, as in the `UserIn` pydantic model of
`main.py`: `username`, `email`, `age`. -/
structure UserIn where
  username : String
  email : String
  age : Int
deriving Repr, DecidableEq

/-- The record built by `{"id": new_id, **user.dict()}` in `main.py`. -/
def recOf (uid : Int) (u : UserIn) : UserOut :=
  ⟨uid, u.username, u.email, u.age⟩

/-- The store document `{"users": [...], "next_id": n}` of `data.json`.
`next_id = none` models a document whose `"next_id"` key is missing. -/
structure Db where
  users : List UserOut
  next_id : Option Int
deriving Repr, DecidableEq

/-- The default document `{"users": [], "next_id": 1}` written by
`_ensure_db` when the backing file is absent. -/
def defaultDb : Db := ⟨[], some 1⟩

/-- `_ensure_db` of `main.py`: if the file does not exist, write the default
document; otherwise leave the file alone. -/
def _ensure_db : Option Db → Option Db
  | none => some defaultDb
  | some d => some d

/-- `load_db` of `main.py`: ensure the file exists, then read it.  Returns
the parsed document together with the state of the file after the call. -/
def load_db (f : Option Db) : Db × Option Db :=
  ((_ensure_db f).getD defaultDb, _ensure_db f)

/-- `save_db` of `main.py`: overwrite the file with the full document. -/
def save_db (db : Db) (_f : Option Db) : Option Db := some db

/-- `create_user` of `main.py`, acting on an already-loaded document:
`new_id = db.get("next_id", 1)`, append `{"id": new_id, **user.dict()}` to
`db["users"]`, set `db["next_id"] = new_id + 1`, and return the new record. -/
def create_user (user : UserIn) (db : Db) : UserOut × Db :=
  let new_id := db.next_id.getD 1
  (recOf new_id user, ⟨db.users ++ [recOf new_id user], some (new_id + 1)⟩)

/-- The loop of `get_user` in `main.py`: linear scan, first record whose
`"id"` equals `user_id`; `none` models `HTTPException(404, "User not found")`. -/
def get_user (uid : Int) (db : Db) : Option UserOut :=
  db.users.find? (fun u => u.id == uid)

/-- The loop of `update_user` in `main.py` over the `"users"` list: replace
the first record whose `"id"` equals `user_id` by
`{"id": user_id, **user.dict()}` in place; `none` if no record matches. -/
def update_users (uid : Int) (user : UserIn) : List UserOut → Option (List UserOut)
  | [] => none
  | u :: rest =>
    if u.id = uid then some (recOf uid user :: rest)
    else (update_users uid user rest).map (u :: ·)

/-- `update_user` of `main.py`, acting on an already-loaded document:
returns the updated record and the new document, or `none` for the 404. -/
def update_user (uid : Int) (user : UserIn) (db : Db) : Option (UserOut × Db) :=
  (update_users uid user db.users).map (fun l => (recOf uid user, ⟨l, db.next_id⟩))

/-- The loop of `delete_user` in `main.py` over the `"users"` list:
`pop` the first record whose `"id"` equals `user_id`; `none` if no record
matches. -/
def delete_users (uid : Int) : List UserOut → Option (List UserOut)
  | [] => none
  | u :: rest =>
    if u.id = uid then some rest
    else (delete_users uid rest).map (u :: ·)

/-- `delete_user` of `main.py`, acting on an already-loaded document:
returns the new document, or `none` for the 404. -/
def delete_user (uid : Int) (db : Db) : Option Db :=
  (delete_users uid db.users).map (fun l => ⟨l, db.next_id⟩)

/-- The full `create_user` handler: under the lock, `load_db`, mutate,
`save_db`.  Returns the created record (the 201 body) and the file state. -/
def create_userFS (u : UserIn) (f : Option Db) : UserOut × Option Db :=
  let (db, f1) := load_db f
  let (r, db2) := create_user u db
  (r, save_db db2 f1)

/-- The full `update_user` handler: under the lock, `load_db`, then either
replace-and-`save_db` (200) or raise 404 without saving.  The first
component is `some r` for a 200 with body `r`, `none` for the 404
`{"detail": "User not found"}`. -/
def update_userFS (uid : Int) (u : UserIn) (f : Option Db) :
    Option UserOut × Option Db :=
  let (db, f1) := load_db f
  match update_user uid u db with
  | some (r, db2) => (some r, save_db db2 f1)
  | none => (none, f1)

/-- The full `delete_user` handler: under the lock, `load_db`, then either
pop-and-`save_db` (204, empty body, first component `true`) or raise 404
without saving (first component `false`). -/
def delete_userFS (uid : Int) (f : Option Db) : Bool × Option Db :=
  let (db, f1) := load_db f
  match delete_user uid db with
  | some db2 => (true, save_db db2 f1)
  | none => (false, f1)

/-- The full `get_user` handler: `load_db` (no lock, no save), linear scan. -/
def get_userFS (uid : Int) (f : Option Db) : Option UserOut × Option Db :=
  let (db, f1) := load_db f
  (get_user uid db, f1)

/-! ### Operation traces over the store

For claims about "every sequence of operations" we run a list of abstract
operations from the initial document. -/

/-- One mutating API call. -/
inductive Op where
  | create (u : UserIn)
  | update (uid : Int) (u : UserIn)
  | delete (uid : Int)
deriving Repr

/-- The document after one mutating call (a 404 leaves the document as it
was, since the handler raises before `save_db`). -/
def step (db : Db) : Op → Db
  | .create u => (create_user u db).2
  | .update uid u => ((update_user uid u db).map Prod.snd).getD db
  | .delete uid => (delete_user uid db).getD db

/-- The ids issued by one call: a create issues `db.get("next_id", 1)`,
updates and deletes issue nothing. -/
def issuedOf (db : Db) : Op → List Int
  | .create _ => [db.next_id.getD 1]
  | _ => []

/-- All ids issued along a trace starting from `db`. -/
def issuedAll : Db → List Op → List Int
  | _, [] => []
  | db, op :: rest => issuedOf db op ++ issuedAll (step db op) rest

/-- The document reached from the initial `{"users": [], "next_id": 1}` by
a trace of mutating calls. -/
def run (ops : List Op) : Db := ops.foldl step defaultDb

/-! ### HTTP layer and middleware chain

We model the parts of a request and response the claims talk about: the
path, the `X-API-Key` request header, the status code, the response headers
and the JSON body.  `@app.middleware("http")` registers a middleware by
prepending it to Starlette's stack (`add_middleware` inserts at position 0
and `build_middleware_stack` wraps in reverse), so the middleware registered
LAST runs OUTERMOST: in `main.py`, `timing_header` is registered before
`admin_guard`, hence `admin_guard` wraps `timing_header`, which wraps the
CORS middleware and the router. -/

/-- The parts of a request the middlewares inspect: `request.url.path` and
`request.headers.get("X-API-Key")` (`none` when the header is absent). -/
structure Request where
  path : String
  apiKey : Option String
deriving Repr, DecidableEq

/-- JSON response bodies appearing in `main.py`. -/
inductive Body where
  /-- An empty body (204). -/
  | empty : Body
  /-- An error object `{"detail": s}`. -/
  | detailB (s : String) : Body
  /-- The admin greeting `{"ok": b, "msg": s}`. -/
  | okMsg (b : Bool) (s : String) : Body
  /-- A single user record. -/
  | userB (r : UserOut) : Body
  /-- Any other body (health check, user lists). -/
  | otherB : Body
deriving Repr, DecidableEq

/-- The parts of a response the claims talk about. -/
structure Response where
  status : Nat
  headers : List (String × String)
  body : Body
deriving Repr, DecidableEq

/-- A handler (or a middleware applied to its downstream continuation). -/
def Handler : Type := Request → Response

/-- Python's `str.startswith`, over the character lists of the strings. -/
def startswith (s p : String) : Bool := List.isPrefixOf p.data s.data

/-- Reading a header by key (first binding wins). -/
def getHeader (hs : List (String × String)) (k : String) : Option String :=
  match hs with
  | [] => none
  | (k1, v) :: rest => if k1 = k then some v else getHeader rest k

/-- Setting a header, as `response.headers["X-Process-Time"] = v` does:
any previous value for the key is replaced. -/
def setHeader (hs : List (String × String)) (k v : String) :
    List (String × String) :=
  (k, v) :: hs.eraseP (fun p => p.1 == k)

/-- The character `'0' + d` for a digit value `d ≤ 9`. -/
def dChar (d : Nat) : Char := Char.ofNat (48 + d)

/-- The decimal digits of `n`, most significant first. -/
def natDigs (n : Nat) : List Char :=
  if _h : n < 10 then [dChar n]
  else natDigs (n / 10) ++ [dChar (n % 10)]
termination_by n
decreasing_by exact Nat.div_lt_self (by omega) (by omega)

/-- The characters produced by `f"{duration_ms:.2f}ms"`, with the measured
duration modelled as `q` hundredths of a millisecond (`time.perf_counter`
is monotone, so the duration is nonnegative): the integer part in decimal,
a dot, exactly two decimal digits, and the literal suffix `ms`. -/
def fmtMsChars (q : Nat) : List Char :=
  natDigs (q / 100) ++ '.' :: dChar (q % 100 / 10) :: dChar (q % 100 % 10) :: ('m' :: ['s'])

/-- The string produced by `f"{duration_ms:.2f}ms"`. -/
def fmtMs (q : Nat) : String := ⟨fmtMsChars q⟩

/-- Decides whether a character list matches the spec's pattern
`^\d+\.\d\x7b2\x7dms$`: one or more digits, a dot, exactly two digits,
then `ms`. -/
def matchesPatternChars (cs : List Char) : Bool :=
  (!(cs.takeWhile Char.isDigit).isEmpty) &&
    match cs.dropWhile Char.isDigit with
    | c0 :: d1 :: d2 :: c3 :: (c4 :: []) =>
      (c0 == '.') && d1.isDigit && d2.isDigit && (c3 == 'm') && (c4 == 's')
    | _ => false

/-- Decides whether a string matches the spec's pattern
`^\d+\.\d\x7b2\x7dms$`. -/
def matchesPattern (s : String) : Bool := matchesPatternChars s.data

/-- `timing_header` of `main.py`, with the measured duration (in hundredths
of a millisecond) as the parameter `q`: run the downstream app, then set
`X-Process-Time` on its response. -/
def timing_header (q : Nat) (nxt : Handler) : Handler := fun req =>
  let r := nxt req
  { r with headers := setHeader r.headers "X-Process-Time" (fmtMs q) }

/-- The 401 response built by `admin_guard` in `main.py`. -/
def unauthorized401 : Response :=
  ⟨401, [], .detailB "Unauthorized (missing/invalid X-API-Key)"⟩

/-- `admin_guard` of `main.py`: on a path starting with `/admin/` whose
`X-API-Key` header differs from the configured key (or is absent),
short-circuit with the 401; otherwise call the downstream app. -/
def admin_guard (key : String) (nxt : Handler) : Handler := fun req =>
  if startswith req.path "/admin/" ∧ req.apiKey ≠ some key then unauthorized401
  else nxt req

/-- The `admin_secret` endpoint of `main.py`:
`return {"ok": True, "msg": "Welcome, admin."}`. -/
def admin_secret : Response := ⟨200, [], .okMsg true "Welcome, admin."⟩

/-- A minimal router covering the routes the middleware claims exercise:
`/admin/secret`, `/health`, and a 404 fallback (also the shape of the
`HTTPException(404, "User not found")` responses rendered by FastAPI). -/
def router : Handler := fun req =>
  if req.path = "/admin/secret" then admin_secret
  else if req.path = "/health" then ⟨200, [], .otherB⟩
  else ⟨404, [], .detailB "Not Found"⟩

/-- The application's middleware stack around a downstream app `route`
(the CORS middleware and router): `admin_guard` was registered last, so it
is outermost; `timing_header` wraps the downstream app. -/
def appHandle (key : String) (q : Nat) (route : Handler) : Handler :=
  admin_guard key (timing_header q route)

/-! ## Helper lemmas about the list scans -/

theorem update_users_eq_none {uid : Int} {u : UserIn} {l : List UserOut}
    (h : ∀ r ∈ l, r.id ≠ uid) : update_users uid u l = none := by
  induction l with
  | nil => rfl
  | cons a l ih =>
    rw [update_users, if_neg (h a (List.mem_cons_self a l)),
      ih (fun r hr => h r (List.mem_cons_of_mem a hr))]
    rfl

theorem delete_users_eq_none {uid : Int} {l : List UserOut}
    (h : ∀ r ∈ l, r.id ≠ uid) : delete_users uid l = none := by
  induction l with
  | nil => rfl
  | cons a l ih =>
    rw [delete_users, if_neg (h a (List.mem_cons_self a l)),
      ih (fun r hr => h r (List.mem_cons_of_mem a hr))]
    rfl

theorem update_users_eq_some {uid : Int} (u : UserIn) {l : List UserOut}
    (h : ∃ r ∈ l, r.id = uid) :
    ∃ l1 r l2, l = l1 ++ r :: l2 ∧ r.id = uid ∧ (∀ x ∈ l1, x.id ≠ uid) ∧
      update_users uid u l = some (l1 ++ recOf uid u :: l2) := by
  induction l with
  | nil => simp at h
  | cons a l ih =>
    by_cases ha : a.id = uid
    · exact ⟨[], a, l, by simp, ha, by simp, by rw [update_users, if_pos ha]; rfl⟩
    · obtain ⟨r, hr, hrid⟩ := h
      rcases List.mem_cons.mp hr with h1 | h2
      · exact absurd (h1 ▸ hrid) ha
      · obtain ⟨l1, r1, l2, heq, hid, hfst, hupd⟩ := ih ⟨r, h2, hrid⟩
        refine ⟨a :: l1, r1, l2, by rw [heq]; rfl, hid, ?_, ?_⟩
        · intro x hx
          rcases List.mem_cons.mp hx with h3 | h4
          · exact h3 ▸ ha
          · exact hfst x h4
        · rw [update_users, if_neg ha, hupd]; rfl

theorem delete_users_eq_some {uid : Int} {l : List UserOut}
    (h : ∃ r ∈ l, r.id = uid) :
    ∃ l1 r l2, l = l1 ++ r :: l2 ∧ r.id = uid ∧ (∀ x ∈ l1, x.id ≠ uid) ∧
      delete_users uid l = some (l1 ++ l2) := by
  induction l with
  | nil => simp at h
  | cons a l ih =>
    by_cases ha : a.id = uid
    · exact ⟨[], a, l, by simp, ha, by simp, by rw [delete_users, if_pos ha]; rfl⟩
    · obtain ⟨r, hr, hrid⟩ := h
      rcases List.mem_cons.mp hr with h1 | h2
      · exact absurd (h1 ▸ hrid) ha
      · obtain ⟨l1, r1, l2, heq, hid, hfst, hdel⟩ := ih ⟨r, h2, hrid⟩
        refine ⟨a :: l1, r1, l2, by rw [heq]; rfl, hid, ?_, ?_⟩
        · intro x hx
          rcases List.mem_cons.mp hx with h3 | h4
          · exact h3 ▸ ha
          · exact hfst x h4
        · rw [delete_users, if_neg ha, hdel]; rfl

theorem update_users_ids {uid : Int} {u : UserIn} {l l' : List UserOut}
    (h : update_users uid u l = some l') :
    l'.map (fun r => r.id) = l.map (fun r => r.id) := by
  induction l generalizing l' with
  | nil => simp [update_users] at h
  | cons a l ih =>
    rw [update_users] at h
    by_cases ha : a.id = uid
    · rw [if_pos ha] at h
      cases h
      simp [recOf, ha]
    · rw [if_neg ha] at h
      cases hul : update_users uid u l with
      | none => rw [hul] at h; simp at h
      | some l2 =>
        rw [hul] at h
        simp only [Option.map] at h
        cases h
        simp [ih hul]

theorem delete_users_sublist {uid : Int} {l l' : List UserOut}
    (h : delete_users uid l = some l') : List.Sublist l' l := by
  induction l generalizing l' with
  | nil => simp [delete_users] at h
  | cons a l ih =>
    rw [delete_users] at h
    by_cases ha : a.id = uid
    · rw [if_pos ha] at h
      cases h
      exact List.sublist_cons_self a _
    · rw [if_neg ha] at h
      cases hdl : delete_users uid l with
      | none => rw [hdl] at h; simp at h
      | some l2 =>
        rw [hdl] at h
        simp only [Option.map] at h
        cases h
        exact List.Sublist.cons₂ a (ih hdl)

/-! ## The claims -/

/-- C8: `ensure()` is idempotent: on an absent file it writes the default
document `defaultDb`, running it again (or on an existing file) changes
nothing, and the first `load_db` on an absent file returns exactly the
default document. -/
theorem claim_C8 :
    _ensure_db none = some defaultDb ∧
    (∀ f, _ensure_db (_ensure_db f) = _ensure_db f) ∧
    (∀ db, _ensure_db (some db) = some db) ∧
    load_db none = (defaultDb, some defaultDb) := by
  refine ⟨rfl, ?_, fun db => rfl, rfl⟩
  intro f
  cases f <;> rfl

/-- C5: a PUT on an id matching no record returns the 404 (`none`) and
leaves the backing file exactly as it was: `save_db` is never reached. -/
theorem claim_C5 (db : Db) (uid : Int) (u : UserIn)
    (h : ∀ r ∈ db.users, r.id ≠ uid) :
    update_userFS uid u (some db) = (none, some db) := by
  simp [update_userFS, load_db, _ensure_db, update_user, update_users_eq_none h]

/-- Witness for C5 at a concrete store and id. -/
theorem claim_C5_witness :
    update_userFS 5 ⟨"b", "b@x.com", 20⟩
        (some ⟨[⟨1, "a", "a@x.com", 30⟩], some 2⟩) =
      (none, some ⟨[⟨1, "a", "a@x.com", 30⟩], some 2⟩) :=
  claim_C5 ⟨[⟨1, "a", "a@x.com", 30⟩], some 2⟩ 5 ⟨"b", "b@x.com", 20⟩ (by decide)

/-- C10: a DELETE on an id matching no record answers 404 (`false`) and
does not write the backing file: the document is unchanged. -/
theorem claim_C10 (db : Db) (uid : Int)
    (h : ∀ r ∈ db.users, r.id ≠ uid) :
    delete_userFS uid (some db) = (false, some db) := by
  simp [delete_userFS, load_db, _ensure_db, delete_user, delete_users_eq_none h]

/-- Witness for C10 at a concrete store and id. -/
theorem claim_C10_witness :
    delete_userFS 9 (some ⟨[⟨2, "c", "c@x.com", 40⟩], some 3⟩) =
      (false, some ⟨[⟨2, "c", "c@x.com", 40⟩], some 3⟩) :=
  claim_C10 ⟨[⟨2, "c", "c@x.com", 40⟩], some 3⟩ 9 (by decide)

/-- C9: on a document whose `next_id` key is missing, `create_user` falls
back to `db.get("next_id", 1) = 1`: it assigns id 1 and sets `next_id` to 2
regardless of the records already present, so the assigned id can collide
with an existing record's id. -/
theorem claim_C9 :
    (∀ (db : Db) (u : UserIn), db.next_id = none →
      (create_user u db).1.id = 1 ∧ (create_user u db).2.next_id = some 2) ∧
    (∃ (db : Db) (u : UserIn) (r : UserOut), r ∈ db.users ∧ db.next_id = none ∧
      r.id = (create_user u db).1.id) := by
  constructor
  · intro db u h
    simp [create_user, recOf, h]
  · exact ⟨⟨[⟨1, "a", "a@x.com", 30⟩], none⟩, ⟨"b", "b@x.com", 20⟩,
      ⟨1, "a", "a@x.com", 30⟩, by decide, rfl, by decide⟩

/-- C6: a PUT on an id matching some record answers 200 with the updated
user `recOf uid u` (same id, submitted username/email/age), replaces the
first matching record in place — same position, all records before and
after it untouched, `next_id` untouched — and saves the new document. -/
theorem claim_C6 (db : Db) (uid : Int) (u : UserIn)
    (h : ∃ r ∈ db.users, r.id = uid) :
    ∃ l1 r l2, db.users = l1 ++ r :: l2 ∧ r.id = uid ∧ (∀ x ∈ l1, x.id ≠ uid) ∧
      update_userFS uid u (some db) =
        (some (recOf uid u), some ⟨l1 ++ recOf uid u :: l2, db.next_id⟩) := by
  obtain ⟨l1, r, l2, heq, hid, hfst, hupd⟩ := update_users_eq_some u h
  exact ⟨l1, r, l2, heq, hid, hfst, by
    simp [update_userFS, load_db, _ensure_db, update_user, hupd, save_db]⟩

/-- Witness for C6: replacing the only record of a concrete store. -/
theorem claim_C6_witness :
    update_userFS 1 ⟨"b", "b@x.com", 20⟩
        (some ⟨[⟨1, "a", "a@x.com", 30⟩], some 2⟩) =
      (some ⟨1, "b", "b@x.com", 20⟩, some ⟨[⟨1, "b", "b@x.com", 20⟩], some 2⟩) := by
  obtain ⟨l1, r, l2, heq, hid, hfst, hupd⟩ :=
    claim_C6 ⟨[⟨1, "a", "a@x.com", 30⟩], some 2⟩ 1 ⟨"b", "b@x.com", 20⟩
      ⟨⟨1, "a", "a@x.com", 30⟩, by decide, rfl⟩
  rcases l1 with _ | ⟨x, l1⟩
  · simp only [List.nil_append] at heq hupd
    cases heq
    exact hupd
  · simp at heq

/-- C7: a DELETE on an id matching some record (in a store whose ids are
distinct, the invariant of C2) answers 204 (`true`) and removes exactly
that record, so a subsequent GET on the same id answers the 404 (`none`);
a DELETE on an id matching no record answers 404 (`false`). -/
theorem claim_C7 (db : Db) (uid : Int)
    (hnd : (db.users.map (fun r => r.id)).Nodup) :
    ((∃ r ∈ db.users, r.id = uid) →
      ∃ l1 r l2, db.users = l1 ++ r :: l2 ∧ r.id = uid ∧
        (∀ x ∈ l1, x.id ≠ uid) ∧
        delete_userFS uid (some db) = (true, some ⟨l1 ++ l2, db.next_id⟩) ∧
        get_userFS uid (some ⟨l1 ++ l2, db.next_id⟩) =
          (none, some ⟨l1 ++ l2, db.next_id⟩)) ∧
    ((∀ r ∈ db.users, r.id ≠ uid) →
      delete_userFS uid (some db) = (false, some db)) := by
  constructor
  · intro h
    obtain ⟨l1, r, l2, heq, hid, hfst, hdel⟩ := delete_users_eq_some h
    have hl2 : ∀ x ∈ l2, x.id ≠ uid := by
      rw [heq, List.map_append, List.map_cons, List.nodup_append] at hnd
      have hrnotin : r.id ∉ l2.map (fun s => s.id) := (List.nodup_cons.mp hnd.2.1).1
      intro x hx hxid
      exact hrnotin (List.mem_map.mpr ⟨x, hx, by rw [hxid, hid]⟩)
    refine ⟨l1, r, l2, heq, hid, hfst, ?_, ?_⟩
    · simp [delete_userFS, load_db, _ensure_db, delete_user, hdel, save_db]
    · have hnone : (l1 ++ l2).find? (fun x => x.id == uid) = none := by
        rw [List.find?_eq_none]
        intro x hx
        rcases List.mem_append.mp hx with h1 | h2
        · simp [hfst x h1]
        · simp [hl2 x h2]
      simp [get_userFS, load_db, _ensure_db, get_user, hnone]
  · intro h
    exact claim_C10 db uid h

/-- Witness for C7: delete then get on a concrete two-record store. -/
theorem claim_C7_witness :
    delete_userFS 1 (some ⟨[⟨1, "a", "a@x.com", 30⟩], some 2⟩) =
      (true, some ⟨[], some 2⟩) ∧
    get_userFS 1 (some (⟨[], some 2⟩ : Db)) = (none, some ⟨[], some 2⟩) ∧
    delete_userFS 7 (some ⟨[⟨1, "a", "a@x.com", 30⟩], some 2⟩) =
      (false, some ⟨[⟨1, "a", "a@x.com", 30⟩], some 2⟩) := by
  obtain ⟨h1, -⟩ := claim_C7 ⟨[⟨1, "a", "a@x.com", 30⟩], some 2⟩ 1 (by decide)
  obtain ⟨-, h2⟩ := claim_C7 ⟨[⟨1, "a", "a@x.com", 30⟩], some 2⟩ 7 (by decide)
  obtain ⟨l1, r, l2, heq, hid, hfst, hdel, hget⟩ :=
    h1 ⟨⟨1, "a", "a@x.com", 30⟩, by decide, rfl⟩
  rcases l1 with _ | ⟨x, l1⟩
  · simp only [List.nil_append] at heq hdel hget
    cases heq
    exact ⟨hdel, hget, h2 (by decide)⟩
  · simp at heq

/-- Witness for C9: the fallback at a concrete malformed document. -/
theorem claim_C9_witness :
    (create_user ⟨"b", "b@x.com", 20⟩ ⟨[⟨1, "a", "a@x.com", 30⟩], none⟩).1.id = 1 ∧
    (create_user ⟨"b", "b@x.com", 20⟩
        ⟨[⟨1, "a", "a@x.com", 30⟩], none⟩).2.next_id = some 2 :=
  claim_C9.1 ⟨[⟨1, "a", "a@x.com", 30⟩], none⟩ ⟨"b", "b@x.com", 20⟩ rfl

/-- The store invariant, propagated along any trace of mutating calls:
from a document with `next_id = n`, all record ids below `n` and pairwise
distinct, every reachable document keeps a well-formed `next_id` that never
decreases, keeps all record ids below it and distinct, and every id issued
along the way stays below the final `next_id`. -/
theorem store_inv (ops : List Op) :
    ∀ (db : Db) (n : Int), db.next_id = some n →
    (∀ r ∈ db.users, r.id < n) →
    ((db.users.map (fun r => r.id)).Nodup) →
    ∃ m : Int, (ops.foldl step db).next_id = some m ∧ n ≤ m ∧
      (∀ r ∈ (ops.foldl step db).users, r.id < m) ∧
      (((ops.foldl step db).users.map (fun r => r.id)).Nodup) ∧
      (∀ i ∈ issuedAll db ops, i < m) := by
  induction ops with
  | nil =>
    intro db n h1 h2 h3
    exact ⟨n, h1, le_refl n, h2, h3, by simp [issuedAll]⟩
  | cons op rest ih =>
    intro db n h1 h2 h3
    rw [List.foldl_cons]
    cases op with
    | create u =>
      have hstep : step db (.create u) = ⟨db.users ++ [recOf n u], some (n + 1)⟩ := by
        simp [step, create_user, h1]
      have h2' : ∀ r ∈ (step db (.create u)).users, r.id < n + 1 := by
        rw [hstep]
        intro r hr
        rcases List.mem_append.mp hr with hr1 | hr2
        · exact lt_trans (h2 r hr1) (by omega)
        · simp at hr2
          simp [hr2, recOf]
      have h3' : (((step db (.create u)).users.map (fun r => r.id)).Nodup) := by
        rw [hstep]
        simp only [List.map_append, List.nodup_append]
        refine ⟨h3, by simp, ?_⟩
        intro a ha hb
        simp [recOf] at hb
        obtain ⟨r, hr, hrid⟩ := List.mem_map.mp ha
        have := h2 r hr
        omega
      obtain ⟨m, hm1, hm2, hm3, hm4, hm5⟩ :=
        ih (step db (.create u)) (n + 1) (by rw [hstep]) h2' h3'
      refine ⟨m, hm1, by omega, hm3, hm4, ?_⟩
      intro i hi
      simp only [issuedAll, issuedOf, h1, List.mem_append] at hi
      rcases hi with hi1 | hi2
      · simp at hi1
        omega
      · exact hm5 i hi2
    | update uid u =>
      cases hu : update_users uid u db.users with
      | none =>
        have hstep : step db (.update uid u) = db := by
          simp [step, update_user, hu]
        rw [hstep]
        obtain ⟨m, hm1, hm2, hm3, hm4, hm5⟩ := ih db n h1 h2 h3
        refine ⟨m, hm1, hm2, hm3, hm4, ?_⟩
        intro i hi
        simp only [issuedAll, issuedOf, hstep] at hi
        exact hm5 i (by simpa using hi)
      | some l2 =>
        have hstep : step db (.update uid u) = ⟨l2, db.next_id⟩ := by
          simp [step, update_user, hu]
        have hids := update_users_ids hu
        have h2' : ∀ r ∈ (step db (.update uid u)).users, r.id < n := by
          rw [hstep]
          intro r hr
          have : r.id ∈ db.users.map (fun s => s.id) := by
            rw [← hids]
            exact List.mem_map.mpr ⟨r, hr, rfl⟩
          obtain ⟨s, hs, hsid⟩ := List.mem_map.mp this
          exact hsid ▸ h2 s hs
        have h3' : (((step db (.update uid u)).users.map (fun r => r.id)).Nodup) := by
          rw [hstep]
          simpa [hids] using h3
        obtain ⟨m, hm1, hm2, hm3, hm4, hm5⟩ :=
          ih (step db (.update uid u)) n (by rw [hstep]; exact h1) h2' h3'
        refine ⟨m, hm1, hm2, hm3, hm4, ?_⟩
        intro i hi
        simp only [issuedAll, issuedOf] at hi
        exact hm5 i (by simpa using hi)
    | delete uid =>
      cases hd : delete_users uid db.users with
      | none =>
        have hstep : step db (.delete uid) = db := by
          simp [step, delete_user, hd]
        rw [hstep]
        obtain ⟨m, hm1, hm2, hm3, hm4, hm5⟩ := ih db n h1 h2 h3
        refine ⟨m, hm1, hm2, hm3, hm4, ?_⟩
        intro i hi
        simp only [issuedAll, issuedOf, hstep] at hi
        exact hm5 i (by simpa using hi)
      | some l2 =>
        have hstep : step db (.delete uid) = ⟨l2, db.next_id⟩ := by
          simp [step, delete_user, hd]
        have hsub := delete_users_sublist hd
        have h2' : ∀ r ∈ (step db (.delete uid)).users, r.id < n := by
          rw [hstep]
          intro r hr
          exact h2 r (hsub.subset hr)
        have h3' : (((step db (.delete uid)).users.map (fun r => r.id)).Nodup) := by
          rw [hstep]
          exact List.Nodup.sublist (List.Sublist.map (fun r => r.id) hsub) h3
        obtain ⟨m, hm1, hm2, hm3, hm4, hm5⟩ :=
          ih (step db (.delete uid)) n (by rw [hstep]; exact h1) h2' h3'
        refine ⟨m, hm1, hm2, hm3, hm4, ?_⟩
        intro i hi
        simp only [issuedAll, issuedOf] at hi
        exact hm5 i (by simpa using hi)

/-- C1: along any trace of creates, updates and deletes from the initial
document, a further create assigns exactly the current `next_id`, bumps
`next_id` to its successor, and the assigned id is strictly greater than
every id issued earlier in the trace (deleted ones included). -/
theorem claim_C1 (ops : List Op) (u : UserIn) :
    ∃ n : Int, (run ops).next_id = some n ∧
      (create_user u (run ops)).1.id = n ∧
      (create_user u (run ops)).2.next_id = some (n + 1) ∧
      ∀ i ∈ issuedAll defaultDb ops, i < n := by
  obtain ⟨m, hm1, _, _, _, hm5⟩ :=
    store_inv ops defaultDb 1 rfl (by simp [defaultDb]) (by simp [defaultDb])
  exact ⟨m, hm1, by simp [run, create_user, recOf, hm1],
    by simp [run, create_user, hm1], hm5⟩

/-- Witness for C1: on the concrete trace create-then-delete, the next
create assigns id 2, strictly above the (deleted) issued id 1. -/
theorem claim_C1_witness :
    (create_user ⟨"b", "b@x.com", 20⟩
      (run [Op.create ⟨"a", "a@x.com", 30⟩, Op.delete 1])).1.id = 2 ∧
    (1 : Int) <
      (create_user ⟨"b", "b@x.com", 20⟩
        (run [Op.create ⟨"a", "a@x.com", 30⟩, Op.delete 1])).1.id := by
  obtain ⟨n, h1, h2, h3, h4⟩ :=
    claim_C1 [Op.create ⟨"a", "a@x.com", 30⟩, Op.delete 1] ⟨"b", "b@x.com", 20⟩
  have hn : n = 2 := by
    have hrun : (run [Op.create ⟨"a", "a@x.com", 30⟩, Op.delete 1]).next_id = some 2 := by
      decide
    rw [hrun] at h1
    exact (Option.some.injEq _ _ ▸ h1).symm
  rw [h2, hn]
  exact ⟨rfl, h4 1 (by decide) |>.trans_eq hn⟩

/-- C2: every document reachable from the initial one has pairwise distinct
record ids, and its `next_id` is strictly greater than every id ever
issued along the trace (ids are never recycled, even after deletion). -/
theorem claim_C2 (ops : List Op) :
    (((run ops).users.map (fun r => r.id)).Nodup) ∧
    ∃ n : Int, (run ops).next_id = some n ∧
      ∀ i ∈ issuedAll defaultDb ops, i < n := by
  obtain ⟨m, hm1, _, _, hm4, hm5⟩ :=
    store_inv ops defaultDb 1 rfl (by simp [defaultDb]) (by simp [defaultDb])
  exact ⟨hm4, m, hm1, hm5⟩

/-- Witness for C2 on a concrete trace: two creates and a delete leave
distinct ids and `next_id = 3`, above both issued ids. -/
theorem claim_C2_witness :
    (((run [Op.create ⟨"a", "a@x.com", 30⟩, Op.create ⟨"b", "b@x.com", 20⟩,
        Op.delete 1]).users.map (fun r => r.id)).Nodup) ∧
    (run [Op.create ⟨"a", "a@x.com", 30⟩, Op.create ⟨"b", "b@x.com", 20⟩,
        Op.delete 1]).next_id = some 3 := by
  obtain ⟨hnd, n, h1, h2⟩ :=
    claim_C2 [Op.create ⟨"a", "a@x.com", 30⟩, Op.create ⟨"b", "b@x.com", 20⟩,
      Op.delete 1]
  exact ⟨hnd, by decide⟩

/-! ## Formatting and middleware lemmas -/

theorem dChar_isDigit {d : Nat} (h : d < 10) : (dChar d).isDigit = true := by
  interval_cases d <;> decide

theorem natDigs_ne_nil (n : Nat) : natDigs n ≠ [] := by
  rw [natDigs]
  split <;> simp

theorem natDigs_digits (n : Nat) : ∀ c ∈ natDigs n, c.isDigit = true := by
  induction n using Nat.strong_induction_on with
  | _ n ih =>
    rw [natDigs]
    split
    · next h =>
      intro c hc
      simp at hc
      rw [hc]
      exact dChar_isDigit h
    · next h =>
      intro c hc
      rcases List.mem_append.mp hc with h1 | h2
      · exact ih (n / 10) (Nat.div_lt_self (by omega) (by omega)) c h1
      · simp at h2
        rw [h2]
        exact dChar_isDigit (Nat.mod_lt _ (by omega))

theorem takeWhile_digits_append (l rest : List Char)
    (hl : ∀ c ∈ l, c.isDigit = true) :
    (l ++ '.' :: rest).takeWhile Char.isDigit = l ∧
    (l ++ '.' :: rest).dropWhile Char.isDigit = '.' :: rest := by
  induction l with
  | nil =>
    have hdot : ('.' : Char).isDigit = false := by decide
    constructor <;> simp [List.takeWhile_cons, List.dropWhile_cons, hdot]
  | cons a l ih =>
    have ha := hl a (List.mem_cons_self a l)
    have ih2 := ih (fun c hc => hl c (List.mem_cons_of_mem a hc))
    constructor <;>
      simp [List.takeWhile_cons, List.dropWhile_cons, ha, ih2.1, ih2.2]

theorem matchesPattern_fmtMs (q : Nat) : matchesPattern (fmtMs q) = true := by
  have h1 := natDigs_digits (q / 100)
  have h2 := natDigs_ne_nil (q / 100)
  obtain ⟨ht, hd⟩ := takeWhile_digits_append (natDigs (q / 100))
    (dChar (q % 100 / 10) :: dChar (q % 100 % 10) :: ('m' :: ['s'])) h1
  have hda : (dChar (q % 100 / 10)).isDigit = true := dChar_isDigit (by omega)
  have hdb : (dChar (q % 100 % 10)).isDigit = true :=
    dChar_isDigit (Nat.mod_lt _ (by omega))
  have hem : (natDigs (q / 100)).isEmpty = false := by
    cases hnd : natDigs (q / 100) with
    | nil => exact absurd hnd h2
    | cons c cs => rfl
  show matchesPatternChars (fmtMsChars q) = true
  simp only [matchesPatternChars, fmtMsChars, ht, hd]
  simp [hda, hdb, hem]

/-- C3, counterexample: the claim says every response, including the 401s
short-circuited by the admin guard, carries an `X-Process-Time` header,
because the guard would run downstream of the timing middleware.  In the
code the guard is registered after the timing middleware, so Starlette
places it OUTSIDE the timing middleware: a request to `/admin/secret`
without `X-API-Key` is answered by the guard alone, and its 401 response
carries no `X-Process-Time` header at all. -/
theorem claim_C3_counterexample :
    (appHandle "secret" 0 router ⟨"/admin/secret", none⟩).status = 401 ∧
    getHeader (appHandle "secret" 0 router
      ⟨"/admin/secret", none⟩).headers "X-Process-Time" = none := by
  decide

/-- C3, amended: every response that is not short-circuited by the admin
guard (404s from lookups included) carries an `X-Process-Time` header whose
value matches `^\d+\.\d\x7b2\x7dms$`; the guard runs upstream (outside) of the
timing middleware, so short-circuited 401s carry no such header. -/
theorem claim_C3_amended (key : String) (q : Nat) (route : Handler)
    (req : Request)
    (h : ¬(startswith req.path "/admin/" ∧ req.apiKey ≠ some key)) :
    getHeader (appHandle key q route req).headers "X-Process-Time" =
      some (fmtMs q) ∧
    matchesPattern (fmtMs q) = true := by
  constructor
  · simp [appHandle, admin_guard, h, timing_header, setHeader, getHeader]
  · exact matchesPattern_fmtMs q

/-- Witness for the amended C3 at a concrete non-admin request. -/
theorem claim_C3_witness :
    getHeader (appHandle "secret" 12345 router
      ⟨"/users/1", none⟩).headers "X-Process-Time" = some (fmtMs 12345) ∧
    matchesPattern (fmtMs 12345) = true :=
  claim_C3_amended "secret" 12345 router ⟨"/users/1", none⟩ (by decide)

/-- C4: on any path starting with `/admin/`, an absent or wrong `X-API-Key`
makes the guard answer the fixed 401 body without invoking the downstream
handler (the result is the same for every downstream handler); a non-admin
path passes through unconditionally; and with the correct key,
GET `/admin/secret` answers 200 with the welcome payload. -/
theorem claim_C4 (key : String) (req : Request) :
    (startswith req.path "/admin/" = true → req.apiKey ≠ some key →
      ∀ route : Handler, admin_guard key route req = unauthorized401) ∧
    (startswith req.path "/admin/" = false →
      ∀ route : Handler, admin_guard key route req = route req) ∧
    (∀ route : Handler,
      admin_guard key route ⟨"/admin/secret", some key⟩ =
        route ⟨"/admin/secret", some key⟩) ∧
    (∀ q : Nat,
      (appHandle key q router ⟨"/admin/secret", some key⟩).status = 200 ∧
      (appHandle key q router ⟨"/admin/secret", some key⟩).body =
        .okMsg true "Welcome, admin.") := by
  refine ⟨?_, ?_, ?_, ?_⟩
  · intro h1 h2 route
    simp [admin_guard, h1, h2]
  · intro h1 route
    simp [admin_guard, h1]
  · intro route
    simp [admin_guard]
  · intro q
    constructor <;>
      simp [appHandle, admin_guard, timing_header, router, admin_secret]

/-- Witness for C4: the guard at concrete requests and key. -/
theorem claim_C4_witness :
    admin_guard "secret" router ⟨"/admin/secret", none⟩ = unauthorized401 ∧
    admin_guard "secret" router ⟨"/health", none⟩ = router ⟨"/health", none⟩ ∧
    (appHandle "secret" 0 router ⟨"/admin/secret", some "secret"⟩).status = 200 := by
  obtain ⟨h1, -, -, h4⟩ := claim_C4 "secret" ⟨"/admin/secret", none⟩
  obtain ⟨-, g2, -, -⟩ := claim_C4 "secret" ⟨"/health", none⟩
  exact ⟨h1 (by decide) (by decide) router, g2 (by decide) router, (h4 0).1⟩

end Lab02
